import Mathlib

/-!
Shallow embedding of `feereport.py`, a single-file c-lightning plugin that
emulates LND's `lncli feereport`.  The plugin's `feereport` RPC method
(lines 25-78 of the source) makes three read-only RPC calls
(`listfunds`, `listchannels`, `listforwards`), builds one fee-policy record
per funded channel, and accumulates settled forwarding fees into trailing
24-hour / 7-day / 30-day windows.

Modelling conventions:
* JSON records are typed structures; an optional JSON field is an `Option`.
* Python integers are `ℕ`/`ℤ` (they are arbitrary precision, so no modular
  wrap-around is involved).
* Timestamps (`datetime.now().timestamp()` and `resolved_time`) are
  rationals; `timedelta` arithmetic becomes exact subtraction of the
  corresponding number of seconds (24 h = 86400 s, 7 d = 604800 s,
  30 d = 2592000 s).  Binary floating point (`float` division and `"%.8f"`
  formatting) is idealized as exact rational arithmetic followed by exact
  decimal rounding; over the value ranges a Lightning node can produce the
  two agree digit for digit.
* The one genuinely fallible spot of the method body - the index access
  `short_channel_id_parts[2]`, which raises `IndexError` when the id has
  fewer than three `x`-separated parts - is modelled with `Option`, `none`
  standing for the raised exception.
-/

/-- One entry of `rpc.listfunds()["channels"]` (line 29).  `funding_output`
is optional: line 36 tests `"funding_output" in channel`. -/
structure Channel where
  short_channel_id : String
  funding_txid : String
  funding_output : Option Nat
deriving DecidableEq

/-- One entry of `rpc.listchannels(scid)["channels"]` (line 32): the fields
the plugin reads from a channel-policy listing. -/
structure ChannelDetail where
  source : String
  base_fee_millisatoshi : Nat
  fee_per_millionth : Nat
deriving DecidableEq

/-- One entry of `rpc.listforwards()["forwards"]` (lines 53-55): fee in
millisatoshi, settlement status, and the optional resolution timestamp
(epoch seconds). -/
structure Forward where
  fee : ℤ
  status : String
  resolved_time : Option ℚ
deriving DecidableEq

/-- One record appended to `channel_fees` (lines 44-49); all four fields are
strings in the source. -/
structure ChannelFee where
  chan_point : String
  base_fee_msat : String
  fee_per_mil : String
  fee_rate : String
deriving DecidableEq

/-- The object returned by the `feereport` method (lines 73-78). -/
structure FeeReport where
  channel_fees : List ChannelFee
  day_fee_sum : String
  week_fee_sum : String
  month_fee_sum : String
deriving DecidableEq

/-- The environment one invocation of `feereport` runs in: the three RPC
responses it reads, the node id stored by `init` (line 87), and the wall
clock `datetime.now()` of line 56 as an epoch timestamp. -/
structure RpcState where
  listfunds_channels : List Channel
  listchannels : String → List ChannelDetail
  listforwards : List Forward
  our_nodeid : String
  now : ℚ

/-- Helper for `splitChar`: walks the character list, cutting at each
separator; `acc` holds the current piece reversed. -/
def splitCharAux (sep : Char) : List Char → List Char → List String
  | [], acc => [String.mk acc.reverse]
  | c :: rest, acc =>
    if c = sep then String.mk acc.reverse :: splitCharAux sep rest []
    else splitCharAux sep rest (c :: acc)

/-- Python's `str.split` with a one-character separator, as used on
`short_channel_id` at line 41 (`split("x")`): splitting never yields an
empty list, and adjacent separators yield empty pieces. -/
def splitChar (sep : Char) (s : String) : List String :=
  splitCharAux sep s.data []

/-- Lines 36-42: the output-index string for the channel point - the
explicit `funding_output` when the field is present, otherwise part 2 of
`short_channel_id.split("x")`.  `none` models the `IndexError` raised when
that part does not exist. -/
def funding_output_index (channel : Channel) : Option String :=
  match channel.funding_output with
  | some fo => some (toString fo)
  | none => (splitChar 'x' channel.short_channel_id)[2]?

/-- The eight zero-padded fractional digits of `"%.8f"` formatting, for a
fraction `f < 10^8` (most significant digit first). -/
def pad8 (f : ℕ) : String :=
  String.mk [Nat.digitChar (f / 10000000 % 10), Nat.digitChar (f / 1000000 % 10),
    Nat.digitChar (f / 100000 % 10), Nat.digitChar (f / 10000 % 10),
    Nat.digitChar (f / 1000 % 10), Nat.digitChar (f / 100 % 10),
    Nat.digitChar (f / 10 % 10), Nat.digitChar (f % 10)]

/-- Python's `"%.8f" % v` (line 48) for a nonnegative value: round
`v * 10^8` to the nearest integer and print integer part, point, and eight
zero-padded fractional digits. -/
def format8f (v : ℚ) : String :=
  let n : ℕ := (round (v * 100000000)).toNat
  toString (n / 100000000) ++ "." ++ pad8 (n % 100000000)

/-- Lines 33-34 and 51: the inner `for detail in channel_detail` loop keeps
the first entry whose `source` equals our node id and then `break`s. -/
def findSourceDetail (our_nodeid : String) (details : List ChannelDetail) :
    Option ChannelDetail :=
  details.find? (fun d => d.source == our_nodeid)

/-- Lines 36-49: the record appended to `channel_fees` for one channel and
its matching policy entry; `none` when computing the output index raises. -/
def mkChannelFee (channel : Channel) (detail : ChannelDetail) : Option ChannelFee :=
  (funding_output_index channel).map (fun fo =>
    { chan_point := channel.funding_txid ++ ":" ++ fo
      base_fee_msat := toString detail.base_fee_millisatoshi
      fee_per_mil := toString detail.fee_per_millionth
      fee_rate := format8f ((detail.fee_per_millionth : ℚ) / 1000000) })

/-- Lines 30-51: the outer `for channel in channels` loop building the
`channel_fees` list in enumeration order. -/
def channelFees (our_nodeid : String) (lsc : String → List ChannelDetail) :
    List Channel → Option (List ChannelFee)
  | [] => some []
  | c :: rest =>
    match findSourceDetail our_nodeid (lsc c.short_channel_id) with
    | none => channelFees our_nodeid lsc rest
    | some d =>
      match mkChannelFee c d with
      | none => none
      | some cf => (channelFees our_nodeid lsc rest).map (fun tail => cf :: tail)

/-- Lines 53-55: the `fee_data` generator - `(fee, resolved_time)` for each
forward whose status is `"settled"` and which carries a `resolved_time`. -/
def feeData (forwards : List Forward) : List (ℤ × ℚ) :=
  forwards.filterMap (fun fwd =>
    if fwd.status = "settled" then fwd.resolved_time.map (fun t => (fwd.fee, t))
    else none)

/-- The three running millisatoshi sums of lines 60-62. -/
structure Sums where
  day : ℤ
  week : ℤ
  month : ℤ
deriving DecidableEq

/-- Lines 63-71: one iteration of the accumulation loop - the nested
strict comparisons against the month, week and day cutoffs. -/
def addForward (day_ago week_ago month_ago : ℚ) (s : Sums) (x : ℤ × ℚ) : Sums :=
  if x.2 > month_ago then
    let s1 : Sums := { s with month := s.month + x.1 }
    if x.2 > week_ago then
      let s2 : Sums := { s1 with week := s1.week + x.1 }
      if x.2 > day_ago then { s2 with day := s2.day + x.1 } else s2
    else s1
  else s

/-- Lines 60-71: fold of the accumulation step over the fee data, starting
from zero sums. -/
def sumFees (day_ago week_ago month_ago : ℚ) (l : List (ℤ × ℚ)) : Sums :=
  l.foldl (addForward day_ago week_ago month_ago) ⟨0, 0, 0⟩

/-- Python's `str(int(x / 1000))` of lines 75-77: division idealized as
exact, then `int` truncates toward zero - exactly `Int.tdiv`. -/
def sat_str (msat : ℤ) : String := toString (Int.tdiv msat 1000)

/-- Lines 56-71: the three window sums an invocation computes, with the
cutoffs `now` minus 24 hours, 7 days and 30 days (in seconds). -/
def reportSums (st : RpcState) : Sums :=
  sumFees (st.now - 86400) (st.now - 604800) (st.now - 2592000)
    (feeData st.listforwards)

/-- Lines 29-78: the body of the `feereport` RPC method; `none` models the
`IndexError` escaping the call. -/
def feereport (st : RpcState) : Option FeeReport :=
  (channelFees st.our_nodeid st.listchannels st.listfunds_channels).map
    (fun cfs =>
      { channel_fees := cfs
        day_fee_sum := sat_str (reportSums st).day
        week_fee_sum := sat_str (reportSums st).week
        month_fee_sum := sat_str (reportSums st).month })

/-- Truncating satoshi conversion as the spec words it: drop the sign, do
integer division of the magnitude by 1000, and put the sign back - i.e.
truncation toward zero, never rounding. -/
def truncDiv1000 (msat : ℤ) : ℤ := msat.sign * (msat.natAbs / 1000 : ℕ)

/-- Spec-side total of the fees of the events selected by a predicate. -/
def tally (p : ℤ × ℚ → Bool) (l : List (ℤ × ℚ)) : ℤ :=
  ((l.filter p).map Prod.fst).sum

/-- A concrete invocation environment: one channel `700000x1x0` funded by
transaction `abcd` with no explicit funding output, one matching policy
entry (base fee 1000 msat, 100 ppm), and no forwards. -/
def exampleState : RpcState :=
  { listfunds_channels := [⟨"700000x1x0", "abcd", none⟩]
    listchannels := fun _ => [⟨"ourid", 1000, 100⟩]
    listforwards := []
    our_nodeid := "ourid"
    now := 0 }

/-! ### Structural lemmas about the embedding -/

theorem find?_pre_append {α : Type} {p : α → Bool} {pre : List α} {d : α}
    (post : List α) (hd : p d = true) (hpre : ∀ x ∈ pre, p x = false) :
    List.find? p (pre ++ d :: post) = some d := by
  induction pre with
  | nil => simpa using List.find?_cons_of_pos post hd
  | cons a pre ih =>
      have ha : p a = false := hpre a (by simp)
      rw [List.cons_append, List.find?_cons_of_neg _ (by simp [ha])]
      exact ih (fun x hx => hpre x (by simp [hx]))

theorem mkChannelFee_some {c : Channel} {d : ChannelDetail} {rec : ChannelFee}
    (h : mkChannelFee c d = some rec) :
    ∃ fo, funding_output_index c = some fo ∧
      rec = { chan_point := c.funding_txid ++ ":" ++ fo
              base_fee_msat := toString d.base_fee_millisatoshi
              fee_per_mil := toString d.fee_per_millionth
              fee_rate := format8f ((d.fee_per_millionth : ℚ) / 1000000) } := by
  rcases Option.map_eq_some'.mp h with ⟨fo, hfo, hrec⟩
  exact ⟨fo, hfo, hrec.symm⟩

theorem channelFees_mem {our : String} {lsc : String → List ChannelDetail}
    {chans : List Channel} {cfs : List ChannelFee}
    (h : channelFees our lsc chans = some cfs) :
    ∀ rec ∈ cfs, ∃ c ∈ chans, ∃ d,
      findSourceDetail our (lsc c.short_channel_id) = some d ∧
      mkChannelFee c d = some rec := by
  induction chans generalizing cfs with
  | nil =>
      intro rec hrec
      simp [channelFees] at h
      subst h
      simp at hrec
  | cons c rest ih =>
      intro rec hrec
      rw [channelFees] at h
      split at h
      · rename_i hfind
        obtain ⟨c', hc', d, hd, hmk⟩ := ih h rec hrec
        exact ⟨c', List.mem_cons_of_mem _ hc', d, hd, hmk⟩
      · rename_i d hfind
        split at h
        · exact absurd h (by simp)
        · rename_i cf hmk
          rcases Option.map_eq_some'.mp h with ⟨tail, htail, hcfs⟩
          subst hcfs
          rcases List.mem_cons.mp hrec with hrec | hrec
          · subst hrec
            exact ⟨c, List.mem_cons_self _ _, d, hfind, hmk⟩
          · obtain ⟨c', hc', d', hd', hmk'⟩ := ih htail rec hrec
            exact ⟨c', List.mem_cons_of_mem _ hc', d', hd', hmk'⟩

theorem channelFees_length {our : String} {lsc : String → List ChannelDetail}
    {chans : List Channel} {cfs : List ChannelFee}
    (h : channelFees our lsc chans = some cfs) :
    cfs.length ≤ chans.length := by
  induction chans generalizing cfs with
  | nil => simp [channelFees] at h; simp [h]
  | cons c rest ih =>
      rw [channelFees] at h
      split at h
      · exact (ih h).trans (by simp)
      · split at h
        · exact absurd h (by simp)
        · rcases Option.map_eq_some'.mp h with ⟨tail, htail, hcfs⟩
          subst hcfs
          simpa using ih htail

theorem pad8_length (f : ℕ) : (pad8 f).length = 8 := rfl

theorem format8f_ppm (p : ℕ) :
    format8f ((p : ℚ) / 1000000) =
      toString (p / 1000000) ++ "." ++ pad8 (100 * p % 100000000) := by
  have h1 : ((p : ℚ) / 1000000 * 100000000) = ((100 * p : ℕ) : ℚ) := by
    push_cast; ring
  have h2 : 100 * p / 100000000 = p / 1000000 := by
    have h3 := @Nat.mul_div_mul_left 100 p 1000000 (by norm_num)
    norm_num at h3
    exact h3
  simp only [format8f, h1, round_natCast, Int.toNat_natCast, h2]

theorem sat_str_eq_truncDiv (msat : ℤ) :
    sat_str msat = toString (truncDiv1000 msat) := by
  rw [sat_str]
  congr 1
  rw [truncDiv1000]
  cases msat with
  | ofNat m =>
      cases m with
      | zero => decide
      | succ k =>
          show Int.ofNat ((k + 1) / 1000) =
            (Int.ofNat (k + 1)).sign * ((Int.ofNat (k + 1)).natAbs / 1000 : ℕ)
          simp [Int.sign]
          rw [abs_of_nonneg (by positivity)]
  | negSucc m =>
      show -Int.ofNat ((m + 1) / 1000) =
        (Int.negSucc m).sign * ((Int.negSucc m).natAbs / 1000 : ℕ)
      simp [Int.sign]

theorem tally_cons (p : ℤ × ℚ → Bool) (a : ℤ × ℚ) (l : List (ℤ × ℚ)) :
    tally p (a :: l) = (if p a then a.1 else 0) + tally p l := by
  by_cases h : p a
  · simp [tally, List.filter_cons, h]
  · simp [tally, List.filter_cons, h]

theorem foldl_addForward (d w m : ℚ) (l : List (ℤ × ℚ)) (s : Sums) :
    l.foldl (addForward d w m) s =
      ⟨s.day + tally (fun x => decide (m < x.2) && (decide (w < x.2) && decide (d < x.2))) l,
       s.week + tally (fun x => decide (m < x.2) && decide (w < x.2)) l,
       s.month + tally (fun x => decide (m < x.2)) l⟩ := by
  induction l generalizing s with
  | nil => simp [tally]
  | cons a l ih =>
      rw [List.foldl_cons, ih, tally_cons, tally_cons, tally_cons]
      by_cases hm : m < a.2 <;> by_cases hw : w < a.2 <;> by_cases hd : d < a.2 <;>
        simp [addForward, hm, hw, hd, Sums.mk.injEq] <;> omega

theorem sumFees_eq (d w m : ℚ) (l : List (ℤ × ℚ)) :
    sumFees d w m l =
      ⟨tally (fun x => decide (m < x.2) && (decide (w < x.2) && decide (d < x.2))) l,
       tally (fun x => decide (m < x.2) && decide (w < x.2)) l,
       tally (fun x => decide (m < x.2)) l⟩ := by
  rw [sumFees, foldl_addForward]
  simp

theorem tally_nonneg (p : ℤ × ℚ → Bool) (l : List (ℤ × ℚ))
    (hf : ∀ x ∈ l, 0 ≤ x.1) : 0 ≤ tally p l := by
  induction l with
  | nil => simp [tally]
  | cons a l ih =>
      rw [tally_cons]
      have ha : 0 ≤ a.1 := hf a (by simp)
      have hl : 0 ≤ tally p l := ih (fun x hx => hf x (by simp [hx]))
      by_cases h : p a
      · simp [h]; linarith
      · simp [h]; exact hl

theorem tally_mono (p q : ℤ × ℚ → Bool) (l : List (ℤ × ℚ))
    (hf : ∀ x ∈ l, 0 ≤ x.1) (himp : ∀ x, q x = true → p x = true) :
    tally q l ≤ tally p l := by
  induction l with
  | nil => simp [tally]
  | cons a l ih =>
      rw [tally_cons, tally_cons]
      have ha : 0 ≤ a.1 := hf a (by simp)
      have hl := ih (fun x hx => hf x (by simp [hx]))
      by_cases hq : q a
      · rw [himp a hq, if_pos hq]
        simp only [if_true]
        linarith
      · by_cases hp : p a
        · simp [hp, hq]; linarith
        · simp [hp, hq]; exact hl

theorem feeData_mem_nonneg {forwards : List Forward}
    (hf : ∀ f ∈ forwards, 0 ≤ f.fee) :
    ∀ x ∈ feeData forwards, 0 ≤ x.1 := by
  intro x hx
  rw [feeData] at hx
  rcases List.mem_filterMap.mp hx with ⟨f, hfmem, hfx⟩
  by_cases hs : f.status = "settled"
  · rw [if_pos hs] at hfx
    rcases Option.map_eq_some'.mp hfx with ⟨t, _, hxeq⟩
    rw [← hxeq]
    exact hf f hfmem
  · rw [if_neg hs] at hfx
    simp at hfx

theorem feeData_skip {f : Forward}
    (hf : f.status ≠ "settled" ∨ f.resolved_time = none)
    (pre post : List Forward) :
    feeData (pre ++ f :: post) = feeData (pre ++ post) := by
  have hnone : (if f.status = "settled" then
      f.resolved_time.map (fun t => (f.fee, t)) else none) = none := by
    rcases hf with h | h
    · simp [h]
    · simp [h]
  simp [feeData, List.filterMap_append, List.filterMap_cons, hnone]

theorem channelFees_skip {our : String} {lsc : String → List ChannelDetail}
    {c : Channel} (hc : findSourceDetail our (lsc c.short_channel_id) = none) :
    ∀ pre post : List Channel,
      channelFees our lsc (pre ++ c :: post) = channelFees our lsc (pre ++ post)
  | [], post => by
      rw [List.nil_append, List.nil_append, channelFees, hc]
  | p :: pre, post => by
      rw [List.cons_append, List.cons_append, channelFees, channelFees,
        channelFees_skip hc pre post]

theorem channelFees_cons_mk {our : String} {lsc : String → List ChannelDetail}
    {c : Channel} {d : ChannelDetail} {cf : ChannelFee} {rest : List Channel}
    (hfind : findSourceDetail our (lsc c.short_channel_id) = some d)
    (hmk : mkChannelFee c d = some cf) :
    channelFees our lsc (c :: rest) =
      (channelFees our lsc rest).map (fun tail => cf :: tail) := by
  rw [channelFees, hfind]
  dsimp only
  rw [hmk]

/-! ### The claims -/

/-- C1: whenever `listfunds` returns exactly one channel with
short_channel_id `700000x1x0`, funding_txid `abcd` and no funding_output,
and `listchannels` for that id returns one entry sourced by our node with
`base_fee_millisatoshi` 1000 and `fee_per_millionth` 100, the report's
`channel_fees` is exactly the one record
`{chan_point "abcd:0", base_fee_msat "1000", fee_per_mil "100",
fee_rate "0.00010000"}`. -/
theorem c1_end_to_end (st : RpcState) (d : ChannelDetail)
    (hfunds : st.listfunds_channels = [⟨"700000x1x0", "abcd", none⟩])
    (hlsc : st.listchannels "700000x1x0" = [d])
    (hsrc : d.source = st.our_nodeid)
    (hbase : d.base_fee_millisatoshi = 1000)
    (hppm : d.fee_per_millionth = 100) :
    ∃ rep, feereport st = some rep ∧
      rep.channel_fees = [⟨"abcd:0", "1000", "100", "0.00010000"⟩] := by
  have hfind : findSourceDetail st.our_nodeid
      (st.listchannels (⟨"700000x1x0", "abcd", none⟩ : Channel).short_channel_id) =
      some d := by
    rw [show (⟨"700000x1x0", "abcd", none⟩ : Channel).short_channel_id =
      "700000x1x0" from rfl, hlsc, findSourceDetail]
    simp [hsrc]
  have hmk : mkChannelFee ⟨"700000x1x0", "abcd", none⟩ d =
      some ⟨"abcd:0", "1000", "100", "0.00010000"⟩ := by
    have hfo : funding_output_index ⟨"700000x1x0", "abcd", none⟩ = some "0" := by
      decide
    rw [mkChannelFee, hfo, Option.map_some', hbase, hppm, format8f_ppm]
    decide
  have hcf : channelFees st.our_nodeid st.listchannels st.listfunds_channels =
      some [⟨"abcd:0", "1000", "100", "0.00010000"⟩] := by
    rw [hfunds, channelFees_cons_mk hfind hmk, channelFees, Option.map_some']
  refine ⟨_, by rw [feereport, hcf, Option.map_some'], rfl⟩

/-- Witness for C1 at the concrete environment `exampleState`. -/
theorem c1_end_to_end_witness :
    ∃ rep, feereport exampleState = some rep ∧
      rep.channel_fees = [⟨"abcd:0", "1000", "100", "0.00010000"⟩] :=
  c1_end_to_end exampleState ⟨"ourid", 1000, 100⟩ rfl rfl rfl rfl rfl

theorem tally_nil (p : ℤ × ℚ → Bool) : tally p [] = 0 := rfl

/-- C2: the accumulation over settled forwards with a resolution time is
nested and cumulative with strict cutoffs.  First conjunct: the month sum
totals events strictly after `now` minus 30 days, the week sum those
additionally strictly after `now` minus 7 days, and the day sum those
additionally strictly after `now` minus 24 hours.  Second conjunct: an
event at `now` minus 2 hours counts in all three sums, one at `now` minus
5 days in week and month only, one at `now` minus 20 days in month only,
and one at `now` minus 40 days in none. -/
theorem c2_nested_windows :
    (∀ (now : ℚ) (l : List (ℤ × ℚ)),
      sumFees (now - 86400) (now - 604800) (now - 2592000) l =
        ⟨tally (fun x => decide (now - 2592000 < x.2) &&
            (decide (now - 604800 < x.2) && decide (now - 86400 < x.2))) l,
         tally (fun x => decide (now - 2592000 < x.2) &&
            decide (now - 604800 < x.2)) l,
         tally (fun x => decide (now - 2592000 < x.2)) l⟩) ∧
    (∀ (now : ℚ) (f1 f2 f3 f4 : ℤ),
      sumFees (now - 86400) (now - 604800) (now - 2592000)
        (feeData [⟨f1, "settled", some (now - 7200)⟩,
                  ⟨f2, "settled", some (now - 432000)⟩,
                  ⟨f3, "settled", some (now - 1728000)⟩,
                  ⟨f4, "settled", some (now - 3456000)⟩]) =
        ⟨f1, f1 + f2, f1 + f2 + f3⟩) := by
  constructor
  · intro now l
    exact sumFees_eq _ _ _ l
  · intro now f1 f2 f3 f4
    have hfd : feeData [⟨f1, "settled", some (now - 7200)⟩,
        ⟨f2, "settled", some (now - 432000)⟩,
        ⟨f3, "settled", some (now - 1728000)⟩,
        ⟨f4, "settled", some (now - 3456000)⟩] =
        [(f1, now - 7200), (f2, now - 432000), (f3, now - 1728000),
         (f4, now - 3456000)] := by
      simp [feeData]
    rw [hfd, sumFees_eq]
    norm_num [tally_cons, tally_nil, sub_lt_sub_iff_left, Sums.mk.injEq]
    ring

theorem feereport_exampleState :
    feereport exampleState =
      some ⟨[⟨"abcd:0", "1000", "100", "0.00010000"⟩], "0", "0", "0"⟩ := by
  have hfind : findSourceDetail exampleState.our_nodeid
      (exampleState.listchannels
        (⟨"700000x1x0", "abcd", none⟩ : Channel).short_channel_id) =
      some ⟨"ourid", 1000, 100⟩ := by decide
  have hmk : mkChannelFee ⟨"700000x1x0", "abcd", none⟩ ⟨"ourid", 1000, 100⟩ =
      some ⟨"abcd:0", "1000", "100", "0.00010000"⟩ := by
    have hfo : funding_output_index ⟨"700000x1x0", "abcd", none⟩ = some "0" := by
      decide
    rw [mkChannelFee, hfo, Option.map_some']
    dsimp only
    rw [format8f_ppm]
    decide
  have hcf : channelFees exampleState.our_nodeid exampleState.listchannels
      exampleState.listfunds_channels =
      some [⟨"abcd:0", "1000", "100", "0.00010000"⟩] := by
    rw [show exampleState.listfunds_channels =
      [⟨"700000x1x0", "abcd", none⟩] from rfl]
    rw [channelFees_cons_mk hfind hmk, channelFees, Option.map_some']
  rw [feereport, hcf, Option.map_some']
  rw [show reportSums exampleState = ⟨0, 0, 0⟩ from rfl]
  decide

/-- C3: every reported fee sum is its millisatoshi total converted to
satoshi by integer division by 1000, truncating toward zero (never
rounding) - `truncDiv1000` states the truncation explicitly on the
magnitude; in particular a total of 1999 millisatoshi prints as "1". -/
theorem c3_truncated_satoshi_strings :
    (∀ st rep, feereport st = some rep →
      rep.day_fee_sum = toString (truncDiv1000 (reportSums st).day) ∧
      rep.week_fee_sum = toString (truncDiv1000 (reportSums st).week) ∧
      rep.month_fee_sum = toString (truncDiv1000 (reportSums st).month)) ∧
    sat_str 1999 = "1" := by
  refine ⟨?_, by decide⟩
  intro st rep h
  rw [feereport] at h
  rcases Option.map_eq_some'.mp h with ⟨cfs, hcfs, hrep⟩
  subst hrep
  exact ⟨sat_str_eq_truncDiv _, sat_str_eq_truncDiv _, sat_str_eq_truncDiv _⟩

/-- Witness for C3 at the concrete environment `exampleState`. -/
theorem c3_truncated_satoshi_strings_witness :
    (⟨[⟨"abcd:0", "1000", "100", "0.00010000"⟩], "0", "0", "0"⟩ :
        FeeReport).day_fee_sum =
      toString (truncDiv1000 (reportSums exampleState).day) ∧
    (⟨[⟨"abcd:0", "1000", "100", "0.00010000"⟩], "0", "0", "0"⟩ :
        FeeReport).week_fee_sum =
      toString (truncDiv1000 (reportSums exampleState).week) ∧
    (⟨[⟨"abcd:0", "1000", "100", "0.00010000"⟩], "0", "0", "0"⟩ :
        FeeReport).month_fee_sum =
      toString (truncDiv1000 (reportSums exampleState).month) :=
  c3_truncated_satoshi_strings.1 exampleState _ feereport_exampleState

theorem pad8_value (p : ℕ) :
    ((p / 1000000 : ℕ) : ℚ) + ((100 * p % 100000000 : ℕ) : ℚ) / 100000000 =
      (p : ℚ) / 1000000 := by
  have h2 : 100 * p / 100000000 = p / 1000000 := by
    have h3 := @Nat.mul_div_mul_left 100 p 1000000 (by norm_num)
    norm_num at h3
    exact h3
  have key : 100000000 * (p / 1000000) + 100 * p % 100000000 = 100 * p := by
    calc 100000000 * (p / 1000000) + 100 * p % 100000000
        = 100000000 * (100 * p / 100000000) + 100 * p % 100000000 := by rw [h2]
      _ = 100 * p := Nat.div_add_mod (100 * p) 100000000
  have keyq := congrArg (fun n : ℕ => (n : ℚ)) key
  push_cast at keyq
  field_simp
  linarith

/-- C4: every emitted `fee_rate` is a decimal string with exactly eight
digits after the decimal point whose value is the matching policy entry's
`fee_per_millionth` divided by one million. -/
theorem c4_fee_rate_format :
    ∀ st rep, feereport st = some rep → ∀ rec ∈ rep.channel_fees,
      ∃ c ∈ st.listfunds_channels, ∃ d,
        findSourceDetail st.our_nodeid (st.listchannels c.short_channel_id) =
          some d ∧
        rec.fee_rate = toString (d.fee_per_millionth / 1000000) ++ "." ++
          pad8 (100 * d.fee_per_millionth % 100000000) ∧
        (pad8 (100 * d.fee_per_millionth % 100000000)).length = 8 ∧
        ((d.fee_per_millionth / 1000000 : ℕ) : ℚ) +
            ((100 * d.fee_per_millionth % 100000000 : ℕ) : ℚ) / 100000000 =
          (d.fee_per_millionth : ℚ) / 1000000 := by
  intro st rep h rec hrec
  rw [feereport] at h
  rcases Option.map_eq_some'.mp h with ⟨cfs, hcfs, hrep⟩
  subst hrep
  obtain ⟨c, hc, d, hd, hmk⟩ := channelFees_mem hcfs rec hrec
  rcases mkChannelFee_some hmk with ⟨fo, hfo, hreceq⟩
  subst hreceq
  exact ⟨c, hc, d, hd, format8f_ppm d.fee_per_millionth, pad8_length _,
    pad8_value d.fee_per_millionth⟩

/-- Witness for C4 at the concrete environment `exampleState`. -/
theorem c4_fee_rate_format_witness :
    ∃ c ∈ exampleState.listfunds_channels, ∃ d,
      findSourceDetail exampleState.our_nodeid
        (exampleState.listchannels c.short_channel_id) = some d ∧
      (⟨"abcd:0", "1000", "100", "0.00010000"⟩ : ChannelFee).fee_rate =
        toString (d.fee_per_millionth / 1000000) ++ "." ++
          pad8 (100 * d.fee_per_millionth % 100000000) ∧
      (pad8 (100 * d.fee_per_millionth % 100000000)).length = 8 ∧
      ((d.fee_per_millionth / 1000000 : ℕ) : ℚ) +
          ((100 * d.fee_per_millionth % 100000000 : ℕ) : ℚ) / 100000000 =
        (d.fee_per_millionth : ℚ) / 1000000 :=
  c4_fee_rate_format exampleState
    ⟨[⟨"abcd:0", "1000", "100", "0.00010000"⟩], "0", "0", "0"⟩
    feereport_exampleState ⟨"abcd:0", "1000", "100", "0.00010000"⟩ (by simp)

/-- C5: a forward that is not settled, or that lacks a resolution time,
contributes to none of the three sums: the report is identical to the one
computed with that forward removed from the `listforwards` response. -/
theorem c5_unsettled_no_contribution :
    ∀ (st : RpcState) (pre post : List Forward) (f : Forward),
      st.listforwards = pre ++ f :: post →
      (f.status ≠ "settled" ∨ f.resolved_time = none) →
      feereport st = feereport { st with listforwards := pre ++ post } := by
  intro st pre post f hl hf
  have hfd : feeData st.listforwards = feeData (pre ++ post) := by
    rw [hl]
    exact feeData_skip hf pre post
  have hrs : reportSums st = reportSums { st with listforwards := pre ++ post } := by
    rw [reportSums, reportSums, hfd]
  rw [feereport, feereport, hrs]

/-- Witness for C5: a pending forward leaves the report unchanged. -/
theorem c5_unsettled_no_contribution_witness :
    feereport { exampleState with listforwards := [⟨5, "pending", some 0⟩] } =
      feereport { { exampleState with listforwards := [⟨5, "pending", some 0⟩] }
        with listforwards := ([] : List Forward) ++ [] } :=
  c5_unsettled_no_contribution _ [] [] ⟨5, "pending", some 0⟩ rfl
    (Or.inl (by decide))

/-- C6: a funded channel whose policy listing has no entry sourced by our
node yields no `channel_fees` record and no error: the report is identical
to the one computed with that channel removed from the `listfunds`
response, so the remaining channels are processed normally. -/
theorem c6_no_matching_policy :
    ∀ (st : RpcState) (pre post : List Channel) (c : Channel),
      st.listfunds_channels = pre ++ c :: post →
      (∀ d ∈ st.listchannels c.short_channel_id, d.source ≠ st.our_nodeid) →
      feereport st = feereport { st with listfunds_channels := pre ++ post } := by
  intro st pre post c hl hnone
  have hfind : findSourceDetail st.our_nodeid
      (st.listchannels c.short_channel_id) = none := by
    rw [findSourceDetail, List.find?_eq_none]
    intro d hd
    simp [hnone d hd]
  have hcf : channelFees st.our_nodeid st.listchannels st.listfunds_channels =
      channelFees st.our_nodeid st.listchannels (pre ++ post) := by
    rw [hl]
    exact channelFees_skip hfind pre post
  rw [feereport, feereport, hcf]
  rfl

/-- Witness for C6: a channel with a foreign-sourced policy entry only. -/
theorem c6_no_matching_policy_witness :
    feereport { exampleState with listchannels := fun _ => [⟨"other", 1, 2⟩] } =
      feereport { { exampleState with listchannels := fun _ => [⟨"other", 1, 2⟩] }
        with listfunds_channels := ([] : List Channel) ++ [] } :=
  c6_no_matching_policy _ [] [] ⟨"700000x1x0", "abcd", none⟩ rfl (by decide)

theorem funding_output_index_eq {c : Channel} {fo : String}
    (h : funding_output_index c = some fo) :
    (∃ v, c.funding_output = some v ∧ fo = toString v) ∨
    (c.funding_output = none ∧
      (splitChar 'x' c.short_channel_id)[2]? = some fo) := by
  rw [funding_output_index] at h
  cases hco : c.funding_output with
  | some v =>
      rw [hco] at h
      simp at h
      exact Or.inl ⟨v, rfl, h.symm⟩
  | none =>
      rw [hco] at h
      exact Or.inr ⟨rfl, h⟩

/-- C7: every emitted `chan_point` is the channel's funding_txid, a colon,
and an output index, the index being the explicit `funding_output` when
present and otherwise the third `x`-delimited part of the
short_channel_id. -/
theorem c7_chan_point_format :
    ∀ st rep, feereport st = some rep → ∀ rec ∈ rep.channel_fees,
      ∃ c ∈ st.listfunds_channels, ∃ idx,
        rec.chan_point = c.funding_txid ++ ":" ++ idx ∧
        ((∃ fo, c.funding_output = some fo ∧ idx = toString fo) ∨
         (c.funding_output = none ∧
           (splitChar 'x' c.short_channel_id)[2]? = some idx)) := by
  intro st rep h rec hrec
  rw [feereport] at h
  rcases Option.map_eq_some'.mp h with ⟨cfs, hcfs, hrep⟩
  subst hrep
  obtain ⟨c, hc, d, hd, hmk⟩ := channelFees_mem hcfs rec hrec
  rcases mkChannelFee_some hmk with ⟨fo, hfo, hreceq⟩
  subst hreceq
  rcases funding_output_index_eq hfo with ⟨v, hco, hval⟩ | ⟨hco, hidx⟩
  · exact ⟨c, hc, fo, rfl, Or.inl ⟨v, hco, hval⟩⟩
  · exact ⟨c, hc, fo, rfl, Or.inr ⟨hco, hidx⟩⟩

/-- Witness for C7 at the concrete environment `exampleState`. -/
theorem c7_chan_point_format_witness :
    ∃ c ∈ exampleState.listfunds_channels, ∃ idx,
      (⟨"abcd:0", "1000", "100", "0.00010000"⟩ : ChannelFee).chan_point =
        c.funding_txid ++ ":" ++ idx ∧
      ((∃ fo, c.funding_output = some fo ∧ idx = toString fo) ∨
       (c.funding_output = none ∧
         (splitChar 'x' c.short_channel_id)[2]? = some idx)) :=
  c7_chan_point_format exampleState
    ⟨[⟨"abcd:0", "1000", "100", "0.00010000"⟩], "0", "0", "0"⟩
    feereport_exampleState ⟨"abcd:0", "1000", "100", "0.00010000"⟩ (by simp)

/-- Counterexample to C8: for the channel `700000x1x0` (no explicit funding
output) the emitted record's `chan_point` is `abcd:0`, yet the
short-channel-id has no third colon-delimited segment at all - splitting on
a colon leaves the id in one piece - so the output index cannot be the
third colon-delimited segment. -/
theorem c8_colon_counterexample :
    (∃ rep, feereport exampleState = some rep ∧
      rep.channel_fees = [⟨"abcd:0", "1000", "100", "0.00010000"⟩]) ∧
    (splitChar ':' "700000x1x0").length = 1 ∧
    ∀ idx : String, ¬ (splitChar ':' "700000x1x0")[2]? = some idx := by
  refine ⟨⟨_, feereport_exampleState, rfl⟩, by decide, ?_⟩
  intro idx h
  rw [show (splitChar ':' "700000x1x0")[2]? = none from by decide] at h
  exact Option.noConfusion h

/-- C8 as amended: for every channel lacking an explicit funding output,
the output index used in `chan_point` is the third `x`-delimited (not
colon-delimited) segment of the channel's short-channel-id. -/
theorem c8_x_delimited_segment :
    ∀ st rep, feereport st = some rep → ∀ rec ∈ rep.channel_fees,
      ∃ c ∈ st.listfunds_channels, ∃ d,
        findSourceDetail st.our_nodeid (st.listchannels c.short_channel_id) =
          some d ∧
        mkChannelFee c d = some rec ∧
        (c.funding_output = none →
          ∃ idx, (splitChar 'x' c.short_channel_id)[2]? = some idx ∧
            rec.chan_point = c.funding_txid ++ ":" ++ idx) := by
  intro st rep h rec hrec
  rw [feereport] at h
  rcases Option.map_eq_some'.mp h with ⟨cfs, hcfs, hrep⟩
  subst hrep
  obtain ⟨c, hc, d, hd, hmk⟩ := channelFees_mem hcfs rec hrec
  refine ⟨c, hc, d, hd, hmk, ?_⟩
  intro hco
  rcases mkChannelFee_some hmk with ⟨fo, hfo, hreceq⟩
  subst hreceq
  rcases funding_output_index_eq hfo with ⟨v, hcv, _⟩ | ⟨_, hidx⟩
  · rw [hco] at hcv
    exact Option.noConfusion hcv
  · exact ⟨fo, hidx, rfl⟩

/-- Witness for the amended C8 at the concrete environment `exampleState`. -/
theorem c8_x_delimited_segment_witness :
    ∃ c ∈ exampleState.listfunds_channels, ∃ d,
      findSourceDetail exampleState.our_nodeid
        (exampleState.listchannels c.short_channel_id) = some d ∧
      mkChannelFee c d = some ⟨"abcd:0", "1000", "100", "0.00010000"⟩ ∧
      (c.funding_output = none →
        ∃ idx, (splitChar 'x' c.short_channel_id)[2]? = some idx ∧
          (⟨"abcd:0", "1000", "100", "0.00010000"⟩ : ChannelFee).chan_point =
            c.funding_txid ++ ":" ++ idx) :=
  c8_x_delimited_segment exampleState
    ⟨[⟨"abcd:0", "1000", "100", "0.00010000"⟩], "0", "0", "0"⟩
    feereport_exampleState ⟨"abcd:0", "1000", "100", "0.00010000"⟩ (by simp)

theorem tdiv_1000_mono {a b : ℤ} (ha : 0 ≤ a) (hab : a ≤ b) :
    Int.tdiv a 1000 ≤ Int.tdiv b 1000 := by
  rw [Int.tdiv_eq_ediv ha (by norm_num),
    Int.tdiv_eq_ediv (ha.trans hab) (by norm_num)]
  exact Int.ediv_le_ediv (by norm_num) hab

/-- C9: when every forward's fee is nonnegative, the three reported sums
are the decimal strings of integers `qd ≤ qw ≤ qm` - day at most week at
most month. -/
theorem c9_sums_monotone :
    ∀ st rep, (∀ f ∈ st.listforwards, 0 ≤ f.fee) → feereport st = some rep →
      ∃ qd qw qm : ℤ,
        rep.day_fee_sum = toString qd ∧ rep.week_fee_sum = toString qw ∧
        rep.month_fee_sum = toString qm ∧ qd ≤ qw ∧ qw ≤ qm := by
  intro st rep hpos h
  rw [feereport] at h
  rcases Option.map_eq_some'.mp h with ⟨cfs, hcfs, hrep⟩
  subst hrep
  have hnn : ∀ x ∈ feeData st.listforwards, 0 ≤ x.1 := feeData_mem_nonneg hpos
  have hS : reportSums st =
      ⟨tally (fun x => decide (st.now - 2592000 < x.2) &&
          (decide (st.now - 604800 < x.2) && decide (st.now - 86400 < x.2)))
          (feeData st.listforwards),
       tally (fun x => decide (st.now - 2592000 < x.2) &&
          decide (st.now - 604800 < x.2)) (feeData st.listforwards),
       tally (fun x => decide (st.now - 2592000 < x.2))
          (feeData st.listforwards)⟩ := by
    rw [reportSums, sumFees_eq]
  have hdw : (reportSums st).day ≤ (reportSums st).week := by
    rw [hS]
    refine tally_mono _ _ _ hnn ?_
    intro x hx
    simp only [Bool.and_eq_true] at hx ⊢
    exact ⟨hx.1, hx.2.1⟩
  have hwm : (reportSums st).week ≤ (reportSums st).month := by
    rw [hS]
    refine tally_mono _ _ _ hnn ?_
    intro x hx
    simp only [Bool.and_eq_true] at hx
    exact hx.1
  have hd0 : 0 ≤ (reportSums st).day := by
    rw [hS]
    exact tally_nonneg _ _ hnn
  exact ⟨Int.tdiv (reportSums st).day 1000, Int.tdiv (reportSums st).week 1000,
    Int.tdiv (reportSums st).month 1000, rfl, rfl, rfl,
    tdiv_1000_mono hd0 hdw, tdiv_1000_mono (hd0.trans hdw) hwm⟩

/-- Witness for C9 at the concrete environment `exampleState`. -/
theorem c9_sums_monotone_witness :
    ∃ qd qw qm : ℤ,
      (⟨[⟨"abcd:0", "1000", "100", "0.00010000"⟩], "0", "0", "0"⟩ :
          FeeReport).day_fee_sum = toString qd ∧
      (⟨[⟨"abcd:0", "1000", "100", "0.00010000"⟩], "0", "0", "0"⟩ :
          FeeReport).week_fee_sum = toString qw ∧
      (⟨[⟨"abcd:0", "1000", "100", "0.00010000"⟩], "0", "0", "0"⟩ :
          FeeReport).month_fee_sum = toString qm ∧ qd ≤ qw ∧ qw ≤ qm :=
  c9_sums_monotone exampleState _ (by simp [exampleState])
    feereport_exampleState

/-- C10: each funded channel contributes at most one `channel_fees` record;
with several matching policy entries only the first (in listing order)
produces the record and the channel's processing stops there.  First
conjunct: for the head channel, when the listing is `pre` then a matching
`d` with nothing in `pre` matching, the record is built from `d` and the
loop continues with the remaining channels.  Second conjunct: the whole
list never yields more records than there are channels. -/
theorem c10_first_match_only :
    (∀ (our : String) (lsc : String → List ChannelDetail) (c : Channel)
        (rest : List Channel) (cfs : List ChannelFee)
        (pre post : List ChannelDetail) (d : ChannelDetail),
      channelFees our lsc (c :: rest) = some cfs →
      lsc c.short_channel_id = pre ++ d :: post →
      d.source = our →
      (∀ x ∈ pre, x.source ≠ our) →
      ∃ cf tail, mkChannelFee c d = some cf ∧
        channelFees our lsc rest = some tail ∧ cfs = cf :: tail) ∧
    (∀ (our : String) (lsc : String → List ChannelDetail)
        (chans : List Channel) (cfs : List ChannelFee),
      channelFees our lsc chans = some cfs → cfs.length ≤ chans.length) := by
  constructor
  · intro our lsc c rest cfs pre post d h hlsc hsrc hpre
    have hfind : findSourceDetail our (lsc c.short_channel_id) = some d := by
      rw [findSourceDetail, hlsc]
      refine find?_pre_append post (by simp [hsrc]) ?_
      intro x hx
      simp [hpre x hx]
    rw [channelFees, hfind] at h
    dsimp only at h
    split at h
    · simp at h
    · rename_i cf hmk
      rcases Option.map_eq_some'.mp h with ⟨tail, htail, hcfs⟩
      exact ⟨cf, tail, hmk, htail, hcfs.symm⟩
  · intro our lsc chans cfs h
    exact channelFees_length h

/-- Witness for C10: one channel whose listing has two entries sourced by
our node; only the first produces the record. -/
theorem c10_first_match_only_witness :
    ∃ cf tail,
      mkChannelFee ⟨"1x2x3", "txid", some 7⟩ ⟨"n", 1, 2⟩ = some cf ∧
      channelFees "n" (fun _ => [⟨"n", 1, 2⟩, ⟨"n", 3, 4⟩]) [] = some tail ∧
      [(⟨"txid:7", "1", "2", "0.00000200"⟩ : ChannelFee)] = cf :: tail := by
  have hfind : findSourceDetail "n"
      ((fun _ => [(⟨"n", 1, 2⟩ : ChannelDetail), ⟨"n", 3, 4⟩])
        (⟨"1x2x3", "txid", some 7⟩ : Channel).short_channel_id) =
      some ⟨"n", 1, 2⟩ := by decide
  have hmk : mkChannelFee ⟨"1x2x3", "txid", some 7⟩ ⟨"n", 1, 2⟩ =
      some ⟨"txid:7", "1", "2", "0.00000200"⟩ := by
    have hfo : funding_output_index ⟨"1x2x3", "txid", some 7⟩ = some "7" := by
      decide
    rw [mkChannelFee, hfo, Option.map_some']
    dsimp only
    rw [format8f_ppm]
    decide
  have hchan : channelFees "n" (fun _ => [⟨"n", 1, 2⟩, ⟨"n", 3, 4⟩])
      [⟨"1x2x3", "txid", some 7⟩] =
      some [⟨"txid:7", "1", "2", "0.00000200"⟩] := by
    rw [channelFees_cons_mk hfind hmk, channelFees, Option.map_some']
  exact c10_first_match_only.1 "n" (fun _ => [⟨"n", 1, 2⟩, ⟨"n", 3, 4⟩])
    ⟨"1x2x3", "txid", some 7⟩ [] [⟨"txid:7", "1", "2", "0.00000200"⟩]
    [] [⟨"n", 3, 4⟩] ⟨"n", 1, 2⟩ hchan rfl rfl (by simp)
